import Mathlib

/-!
Shallow embedding of the RBAC+PBAC core of the physioguidance backend:
the Role/Privilege registry, the BigQuery-backed Data Access Layer
(`BigQueryService`), the table validator and auto-migrator, the
authentication service (`AuthService`), and the PBAC gate
(`PrivilegeGuard.canActivate`). Definitions mirror the TypeScript source;
theorems settle the frozen specification claims.
-/

namespace PG

/-- `Role` enum from `roles.enum.ts` (values USER, LEARNER, ADMIN, FINANCE,
in `Object.values` order). -/
inductive Role
  | USER
  | LEARNER
  | ADMIN
  | FINANCE
deriving DecidableEq, Repr, Fintype

/-- `Privilege` enum from `privilege.enum.ts`. -/
inductive Privilege
  | EDITOR
  | VIEWER
deriving DecidableEq, Repr

/-- `Object.values(Role)` in declaration order. -/
def allRoles : List Role := [.USER, .LEARNER, .ADMIN, .FINANCE]

/-- `getRoleTableName(role) = role.toLowerCase()`. -/
def getRoleTableName : Role → String
  | .USER => "user"
  | .LEARNER => "learner"
  | .ADMIN => "admin"
  | .FINANCE => "finance"

/-- `User` row of the shared `users` table (`user.interface.ts`). -/
structure User where
  userId : String
  name : String
  email : String
  password : String
  roles : List Role
  created_at : String
deriving DecidableEq, Repr

/-- `RolePrivilege` row of a per-role table (`user.interface.ts`).
The privilege is `Option` because the client code writes
`userData.privileges[role]`, which may be absent at runtime. -/
structure AssignRow where
  userId : String
  privilege : Option Privilege
  created_at : String
deriving DecidableEq, Repr

/-- The BigQuery dataset as seen by the Data Access Layer: the shared
`users` table plus one assignment table per role. -/
structure Store where
  users : List User
  assigns : Role → List AssignRow

/-- `CreateUserDto` (`user.interface.ts`): `privileges` is a
`Record<Role, Privilege>` that may lack entries at runtime. -/
structure CreateUserDto where
  name : String
  email : String
  password : String
  roles : List Role
  privileges : Role → Option Privilege

/-- One primitive store write issued by the Data Access Layer. -/
inductive Write
  | insertUser (u : User)
  | insertAssign (r : Role) (userId : String) (privilege : Option Privilege) (created_at : String)
  | deleteAssign (r : Role) (userId : String)
  | updateAssignPriv (r : Role) (userId : String) (privilege : Option Privilege)
  | setUserRoles (userId : String) (roles : List Role)
  | deleteUserRow (userId : String)
deriving DecidableEq, Repr

/-- Effect of one primitive write on the store. Row inserts append;
`DELETE ... WHERE userId = @userId` removes every matching row;
`UPDATE ... WHERE userId = @userId` rewrites every matching row. -/
def applyWrite (s : Store) : Write → Store
  | .insertUser u => { s with users := s.users ++ [u] }
  | .insertAssign r uid p ts =>
      { s with assigns := fun r' =>
          if r' = r then s.assigns r' ++ [⟨uid, p, ts⟩] else s.assigns r' }
  | .deleteAssign r uid =>
      { s with assigns := fun r' =>
          if r' = r then (s.assigns r').filter (fun row => row.userId ≠ uid)
          else s.assigns r' }
  | .updateAssignPriv r uid p =>
      { s with assigns := fun r' =>
          if r' = r then
            (s.assigns r').map (fun row =>
              if row.userId = uid then { row with privilege := p } else row)
          else s.assigns r' }
  | .setUserRoles uid roles =>
      { s with users := s.users.map (fun u =>
          if u.userId = uid then { u with roles := roles } else u) }
  | .deleteUserRow uid =>
      { s with users := s.users.filter (fun u => u.userId ≠ uid) }

/-- Runs a sequence of writes in order. -/
def runWrites (s : Store) (ws : List Write) : Store := ws.foldl applyWrite s

/-- `SELECT * FROM users WHERE userId = @userId LIMIT 1`. -/
def getUserById (s : Store) (userId : String) : Option User :=
  s.users.find? (fun u => u.userId = userId)

/-- `SELECT * FROM users WHERE email = @email LIMIT 1`. -/
def getUserByEmail (s : Store) (email : String) : Option User :=
  s.users.find? (fun u => u.email = email)

/-- `SELECT * FROM users WHERE email = @email AND userId != @excludeUserId LIMIT 1`. -/
def getUserByEmailExcludingUserId (s : Store) (email excludeUserId : String) : Option User :=
  s.users.find? (fun u => u.email = email ∧ u.userId ≠ excludeUserId)

/-- `SELECT privilege FROM <roleTable> WHERE userId = @userId LIMIT 1`,
`null` when no row matches. -/
def getUserPrivilegeForRole (s : Store) (userId : String) (role : Role) : Option Privilege :=
  ((s.assigns role).find? (fun row => row.userId = userId)).bind (fun row => row.privilege)

/-- The writes issued by `BigQueryService.createUser`: the `users` row
first, then one assignment row per role in `userData.roles`, in order.
`userId` and `created_at` stand for the fresh `uuidv4()` and
`new Date().toISOString()`. -/
def createUserWrites (dto : CreateUserDto) (userId created_at : String) : List Write :=
  .insertUser ⟨userId, dto.name, dto.email, dto.password, dto.roles, created_at⟩ ::
    dto.roles.map (fun r => .insertAssign r userId (dto.privileges r) created_at)

/-- `BigQueryService.createUser`: runs the writes and returns the created
`User` record. -/
def createUser (s : Store) (dto : CreateUserDto) (userId created_at : String) :
    Store × User :=
  (runWrites s (createUserWrites dto userId created_at),
   ⟨userId, dto.name, dto.email, dto.password, dto.roles, created_at⟩)

/-- The writes issued by `BigQueryService.updateUserRolesAndPrivileges`
once the current user has been fetched: deletes for dropped roles, inserts
for added roles, privilege rewrites for retained roles, and finally the
membership-array rewrite on the `users` table. -/
def updateURPWritesOf (oldRoles newRoles : List Role)
    (newPrivileges : Role → Option Privilege) (userId created_at : String) : List Write :=
  (oldRoles.filter (fun r => r ∉ newRoles)).map (fun r => .deleteAssign r userId)
    ++ (newRoles.filter (fun r => r ∉ oldRoles)).map
        (fun r => .insertAssign r userId (newPrivileges r) created_at)
    ++ (newRoles.filter (fun r => r ∈ oldRoles)).map
        (fun r => .updateAssignPriv r userId (newPrivileges r))
    ++ [.setUserRoles userId newRoles]

/-- `BigQueryService.updateUserRolesAndPrivileges`: `none` when
`getUserById` finds no user (the `throw new Error('User not found')`
path); otherwise the write list computed from the fetched user's roles. -/
def updateURPWrites (s : Store) (userId : String) (newRoles : List Role)
    (newPrivileges : Role → Option Privilege) (created_at : String) : Option (List Write) :=
  (getUserById s userId).map (fun u =>
    updateURPWritesOf u.roles newRoles newPrivileges userId created_at)

/-- `BigQueryService.updateUserRolesAndPrivileges`, end to end. -/
def updateUserRolesAndPrivileges (s : Store) (userId : String) (newRoles : List Role)
    (newPrivileges : Role → Option Privilege) (created_at : String) : Option Store :=
  (updateURPWrites s userId newRoles newPrivileges created_at).map (runWrites s)

/-- The writes issued by `BigQueryService.deleteUser` once the user has
been fetched: one assignment delete per held role, then the `users`-row
delete. -/
def deleteUserWritesOf (roles : List Role) (userId : String) : List Write :=
  roles.map (fun r => .deleteAssign r userId) ++ [.deleteUserRow userId]

/-- `BigQueryService.deleteUser`: `none` when the user does not exist. -/
def deleteUserWrites (s : Store) (userId : String) : Option (List Write) :=
  (getUserById s userId).map (fun u => deleteUserWritesOf u.roles userId)

/-- `BigQueryService.deleteUser`, end to end. -/
def deleteUser (s : Store) (userId : String) : Option Store :=
  (deleteUserWrites s userId).map (runWrites s)

/-- Fields supplied to `BigQueryService.updateUser`: each is independently
optional (`Partial<User>`). -/
structure UpdateFields where
  name : Option String
  email : Option String
  password : Option String
  roles : Option (List Role)

/-- The empty partial update. -/
def UpdateFields.empty : UpdateFields := ⟨none, none, none, none⟩

/-- Whether `updateUser`'s dynamic `fieldsToUpdate` list is empty. -/
def UpdateFields.isEmpty (f : UpdateFields) : Bool :=
  f.name.isNone && f.email.isNone && f.password.isNone && f.roles.isNone

/-- The `SET` clause of `updateUser` applied to one `users` row. -/
def applyFields (f : UpdateFields) (u : User) : User :=
  { u with
      name := f.name.getD u.name
      email := f.email.getD u.email
      password := f.password.getD u.password
      roles := f.roles.getD u.roles }

/-- Errors thrown by the Data Access Layer. -/
inductive DalErr
  | noFieldsToUpdate
  | userNotFoundAfterUpdate
deriving DecidableEq, Repr

/-- `BigQueryService.updateUser`: fails when no field is provided, applies
the provided fields to every `users` row matching `userId`, then re-reads
the user (failing if it is gone). -/
def updateUser (s : Store) (userId : String) (f : UpdateFields) :
    Except DalErr (Store × User) :=
  if f.isEmpty then .error .noFieldsToUpdate
  else
    let s' : Store :=
      { s with users := s.users.map (fun u =>
          if u.userId = userId then applyFields f u else u) }
    match getUserById s' userId with
    | none => .error .userNotFoundAfterUpdate
    | some u => .ok (s', u)

/-! ## Table validator and auto-migrator -/

/-- `RoleTableGenerator.getExpectedTableNames()`. -/
def getExpectedTableNames : List String := allRoles.map getRoleTableName

/-- Outcome of one `table.exists()` probe against the store: a boolean
answer, or a raised store error with a message. -/
inductive ProbeOutcome
  | ok (tableExists : Bool)
  | err (msg : String)
deriving DecidableEq, Repr

/-- The store as the validator sees it: every table name answers its
existence probe or raises. -/
def ProbeEnv := String → ProbeOutcome

/-- `TableValidatorService.checkTableExists`: a store error is caught,
logged, and reported as `false`. -/
def checkTableExists (env : ProbeEnv) (tableName : String) : Bool :=
  match env tableName with
  | .ok b => b
  | .err _ => false

/-- `ValidationResult` (`table-validator.service.ts`). -/
structure ValidationResult where
  allTablesExist : Bool
  missingTables : List String
  existingTables : List String
  usersTableExists : Bool
deriving DecidableEq, Repr

/-- `TableValidatorService.validateAllTablesExist`: probes every expected
role table in order, pushing each name into `existingTables` or
`missingTables`; separately probes `users`; aggregates. -/
def validateAllTablesExist (env : ProbeEnv) : ValidationResult :=
  let expectedTables := getExpectedTableNames
  let existingTables := expectedTables.filter (fun t => checkTableExists env t)
  let missingTables := expectedTables.filter (fun t => ¬ checkTableExists env t)
  let usersTableExists := checkTableExists env "users"
  { allTablesExist := missingTables.length = 0 && usersTableExists
    missingTables := missingTables
    existingTables := existingTables
    usersTableExists := usersTableExists }

/-- Outcome of one `dataset.createTable` call. -/
inductive CreateOutcome
  | ok
  | err (msg : String)
deriving DecidableEq, Repr

/-- `MigrationResult` (`types/bigquery/type`). -/
structure MigrationResult where
  created : List String
  failed : List (String × String)
deriving DecidableEq, Repr

/-- One creation attempt of `autoCreateMissingTables`: success goes to
`created`, a caught error goes to `failed` with its message. -/
def attemptCreate (create : String → CreateOutcome) (acc : MigrationResult)
    (tableName : String) : MigrationResult :=
  match create tableName with
  | .ok => { acc with created := acc.created ++ [tableName] }
  | .err m => { acc with failed := acc.failed ++ [(tableName, m)] }

/-- `AutoMigratorService.autoCreateMissingTables`: returns the empty
result when the validator reports everything present; otherwise attempts
the `users` table (if missing) and then each missing role table
independently, collecting successes and failures. -/
def autoCreateMissingTables (env : ProbeEnv) (create : String → CreateOutcome) :
    MigrationResult :=
  let validation := validateAllTablesExist env
  if validation.allTablesExist then { created := [], failed := [] }
  else
    let acc0 : MigrationResult := { created := [], failed := [] }
    let acc1 :=
      if ¬ validation.usersTableExists then attemptCreate create acc0 "users" else acc0
    validation.missingTables.foldl (attemptCreate create) acc1

/-! ## PBAC gate (`PrivilegeGuard.canActivate`) -/

/-- The identity object the gate reads from `request.user` (only the
fields the gate consumes). -/
structure GuardUser where
  userId : String
  roles : List Role

/-- Conditions thrown by the gate (all `ForbiddenException`s): the
missing-identity message, or the message naming the required privilege. -/
inductive GuardErr
  | userNotFound
  | missingPrivilege (required : Privilege)
deriving DecidableEq, Repr

/-- The per-role check loop of `canActivate`: skip candidate roles the
identity does not hold; otherwise fetch the live privilege and succeed on
equality or on the EDITOR-satisfies-VIEWER escalation. -/
def checkRoles (lookup : String → Role → Option Privilege) (user : GuardUser)
    (required : Privilege) : List Role → Bool
  | [] => false
  | role :: rest =>
      if role ∈ user.roles then
        let userPrivilege := lookup user.userId role
        if userPrivilege = some required then true
        else if required = .VIEWER ∧ userPrivilege = some .EDITOR then true
        else checkRoles lookup user required rest
      else checkRoles lookup user required rest

/-- `PrivilegeGuard.canActivate`: `lookup` stands for
`bigQueryService.getUserPrivilegeForRole`. Returns `true`, or throws a
Forbidden condition. -/
def canActivate (requiredPrivilege : Option Privilege) (requiredRoles : Option (List Role))
    (requestUser : Option GuardUser) (lookup : String → Role → Option Privilege) :
    Except GuardErr Bool :=
  match requiredPrivilege with
  | none => .ok true
  | some required =>
      match requestUser with
      | none => .error .userNotFound
      | some user =>
          let rolesToCheck := requiredRoles.getD user.roles
          if rolesToCheck.isEmpty then .error (.missingPrivilege required)
          else if checkRoles lookup user required rolesToCheck then .ok true
          else .error (.missingPrivilege required)

/-! ## Authentication service (`AuthService`) -/

/-- Conditions thrown by `AuthService`, one constructor per throw site
the claims touch. -/
inductive AuthErr
  | conflictEmailExists
  | conflictEmailInUse
  | badRequestMissingPrivilege (role : Role)
  | badRequestUserNotFound
  | unauthorizedInvalidCredentials
  | dalError (e : DalErr)
  | dalUserNotFound
deriving DecidableEq, Repr

/-- `RegisterDto`: name, email, password only. -/
structure RegisterDto where
  name : String
  email : String
  password : String

/-- `AuthService.register`: Conflict when the email is taken, else
`createUser` with roles forced to `[LEARNER]` and privileges forced to
`{LEARNER: VIEWER}`. -/
def register (s : Store) (dto : RegisterDto) (userId created_at : String) :
    Except AuthErr (Store × User) :=
  match getUserByEmail s dto.email with
  | some _ => .error .conflictEmailExists
  | none =>
      .ok (createUser s
        { name := dto.name, email := dto.email, password := dto.password
          roles := [.LEARNER]
          privileges := fun r => if r = .LEARNER then some .VIEWER else none }
        userId created_at)

/-- `AuthService.createUserByAdmin`: Conflict when the email is taken;
BadRequest naming the first role of `dto.roles` with no privilege entry;
else delegates to `createUser`. -/
def createUserByAdmin (s : Store) (dto : CreateUserDto) (userId created_at : String) :
    Except AuthErr (Store × User) :=
  match getUserByEmail s dto.email with
  | some _ => .error .conflictEmailExists
  | none =>
      match dto.roles.find? (fun r => (dto.privileges r).isNone) with
      | some r => .error (.badRequestMissingPrivilege r)
      | none => .ok (createUser s dto userId created_at)

/-- The update payload `AuthService.updateUserByAdmin` receives: every
field may be absent. -/
structure UpdateUserDto where
  name : Option String
  email : Option String
  password : Option String
  roles : Option (List Role)
  privileges : Option (Role → Option Privilege)

/-- `AuthService.updateUserByAdmin`. Mirrors the source order: existence
check; email-conflict check when a truthy, changed email is supplied;
roles-and-privileges coverage check and `updateUserRolesAndPrivileges`
when both are supplied; then the basic-field update, where a blank
password is dropped; when no basic field remains, re-read the user (the
source casts a possibly-null read, hence the `Option User` payload). -/
def updateUserByAdmin (s : Store) (userId : String) (dto : UpdateUserDto)
    (created_at : String) : Except AuthErr (Store × Option User) :=
  match getUserById s userId with
  | none => .error .badRequestUserNotFound
  | some existingUser =>
      let emailConflict :=
        match dto.email with
        | some e =>
            if e ≠ "" ∧ e ≠ existingUser.email then
              (getUserByEmailExcludingUserId s e userId).isSome
            else false
        | none => false
      if emailConflict then .error .conflictEmailInUse
      else
        let afterRoles : Except AuthErr Store :=
          match dto.roles, dto.privileges with
          | some newRoles, some newPrivileges =>
              match newRoles.find? (fun r => (newPrivileges r).isNone) with
              | some r => .error (.badRequestMissingPrivilege r)
              | none =>
                  match updateUserRolesAndPrivileges s userId newRoles newPrivileges created_at with
                  | none => .error .dalUserNotFound
                  | some s' => .ok s'
          | _, _ => .ok s
        match afterRoles with
        | .error e => .error e
        | .ok s' =>
            let updateData : UpdateFields :=
              { name := dto.name
                email := dto.email
                password :=
                  match dto.password with
                  | some p => if p ≠ "" then some p else none
                  | none => none
                roles := none }
            if ¬ updateData.isEmpty then
              match updateUser s' userId updateData with
              | .error e => .error (.dalError e)
              | .ok (s'', u) => .ok (s'', some u)
            else .ok (s', getUserById s' userId)

/-- `AuthService.deleteUserByAdmin`: BadRequest when the user does not
exist, else delegates to `deleteUser`. -/
def deleteUserByAdmin (s : Store) (userId : String) : Except AuthErr Store :=
  match getUserById s userId with
  | none => .error .badRequestUserNotFound
  | some _ =>
      match deleteUser s userId with
      | none => .error .dalUserNotFound
      | some s' => .ok s'

/-! ## Store invariants -/

/-- Some assignment row for `x` is live in role `r`'s table. -/
def hasAssign (s : Store) (r : Role) (x : String) : Prop :=
  ∃ row ∈ s.assigns r, row.userId = x

instance (s : Store) (r : Role) (x : String) : Decidable (hasAssign s r x) :=
  List.decidableBEx _ _

/-- The §3 consistency invariant: for every user row, the membership
array and the set of per-role tables holding an assignment row for that
user coincide. -/
def consistent (s : Store) : Prop :=
  ∀ u ∈ s.users, ∀ r : Role, r ∈ u.roles ↔ hasAssign s r u.userId

instance (s : Store) : Decidable (consistent s) := List.decidableBAll _ _

/-- No assignment row without a corresponding membership flag: every row
of every per-role table belongs to some user row whose membership array
flags that role. -/
def noOrphan (s : Store) : Prop :=
  ∀ r : Role, ∀ row ∈ s.assigns r, ∃ u ∈ s.users, u.userId = row.userId ∧ r ∈ u.roles

instance (s : Store) : Decidable (noOrphan s) :=
  Fintype.decidableForallFintype

/-- `userId`s in the `users` table are pairwise distinct. -/
def nodupUserIds (s : Store) : Prop := (s.users.map User.userId).Nodup

instance (s : Store) : Decidable (nodupUserIds s) := List.nodupDecidable _

/-- A freshly generated `uuidv4()`: unseen in the `users` table and in
every per-role table. -/
def freshUserId (s : Store) (uid : String) : Prop :=
  (∀ u ∈ s.users, u.userId ≠ uid) ∧ ∀ r : Role, ¬ hasAssign s r uid

instance (s : Store) (uid : String) : Decidable (freshUserId s uid) :=
  instDecidableAnd

/-! ## Effect lemmas for the write primitives -/

theorem users_insertAssignList (s : Store) (rs : List Role)
    (privs : Role → Option Privilege) (uid ts : String) :
    (runWrites s (rs.map (fun r => .insertAssign r uid (privs r) ts))).users = s.users := by
  induction rs generalizing s with
  | nil => rfl
  | cons a t ih => simpa [runWrites, applyWrite] using ih _

theorem users_deleteAssignList (s : Store) (rs : List Role) (uid : String) :
    (runWrites s (rs.map (fun r => .deleteAssign r uid))).users = s.users := by
  induction rs generalizing s with
  | nil => rfl
  | cons a t ih => simpa [runWrites, applyWrite] using ih _

theorem users_updateAssignList (s : Store) (rs : List Role)
    (privs : Role → Option Privilege) (uid : String) :
    (runWrites s (rs.map (fun r => .updateAssignPriv r uid (privs r)))).users = s.users := by
  induction rs generalizing s with
  | nil => rfl
  | cons a t ih => simpa [runWrites, applyWrite] using ih _

theorem assigns_insertAssign (s : Store) (a : Role) (uid : String)
    (p : Option Privilege) (ts : String) (r : Role) :
    (applyWrite s (.insertAssign a uid p ts)).assigns r =
      if r = a then s.assigns r ++ [⟨uid, p, ts⟩] else s.assigns r := rfl

theorem assigns_deleteAssign (s : Store) (a : Role) (uid : String) (r : Role) :
    (applyWrite s (.deleteAssign a uid)).assigns r =
      if r = a then (s.assigns r).filter (fun row => row.userId ≠ uid)
      else s.assigns r := rfl

theorem assigns_updateAssignPriv (s : Store) (a : Role) (uid : String)
    (p : Option Privilege) (r : Role) :
    (applyWrite s (.updateAssignPriv a uid p)).assigns r =
      if r = a then
        (s.assigns r).map (fun row =>
          if row.userId = uid then { row with privilege := p } else row)
      else s.assigns r := rfl

theorem hasAssign_insertAssign (s : Store) (a : Role) (uid : String)
    (p : Option Privilege) (ts : String) (r : Role) (x : String) :
    hasAssign (applyWrite s (.insertAssign a uid p ts)) r x ↔
      hasAssign s r x ∨ (r = a ∧ x = uid) := by
  unfold hasAssign
  rw [assigns_insertAssign]
  by_cases hra : r = a
  · rw [if_pos hra]
    constructor
    · rintro ⟨row, hrow, hx⟩
      rcases List.mem_append.mp hrow with h | h
      · exact Or.inl ⟨row, h, hx⟩
      · rw [List.mem_singleton] at h
        exact Or.inr ⟨hra, by rw [← hx, h]⟩
    · rintro (⟨row, h, hx⟩ | ⟨-, hx⟩)
      · exact ⟨row, List.mem_append.mpr (Or.inl h), hx⟩
      · exact ⟨⟨uid, p, ts⟩,
          List.mem_append.mpr (Or.inr (List.mem_singleton.mpr rfl)), hx.symm⟩
  · rw [if_neg hra]
    constructor
    · rintro ⟨row, hrow, hx⟩
      exact Or.inl ⟨row, hrow, hx⟩
    · rintro (⟨row, h, hx⟩ | ⟨hra', -⟩)
      · exact ⟨row, h, hx⟩
      · exact absurd hra' hra

theorem hasAssign_deleteAssign (s : Store) (a : Role) (uid : String)
    (r : Role) (x : String) :
    hasAssign (applyWrite s (.deleteAssign a uid)) r x ↔
      hasAssign s r x ∧ ¬ (r = a ∧ x = uid) := by
  unfold hasAssign
  rw [assigns_deleteAssign]
  by_cases hra : r = a
  · rw [if_pos hra]
    constructor
    · rintro ⟨row, hrow, hx⟩
      rcases List.mem_filter.mp hrow with ⟨h1, h2⟩
      rw [decide_eq_true_eq] at h2
      refine ⟨⟨row, h1, hx⟩, ?_⟩
      rintro ⟨-, hxu⟩
      exact h2 (by rw [hx, hxu])
    · rintro ⟨⟨row, h, hx⟩, hnot⟩
      refine ⟨row, List.mem_filter.mpr ⟨h, ?_⟩, hx⟩
      rw [decide_eq_true_eq]
      intro hbad
      exact hnot ⟨hra, by rw [← hx, hbad]⟩
  · rw [if_neg hra]
    constructor
    · rintro ⟨row, hrow, hx⟩
      refine ⟨⟨row, hrow, hx⟩, ?_⟩
      rintro ⟨hra', -⟩
      exact hra hra'
    · rintro ⟨⟨row, h, hx⟩, -⟩
      exact ⟨row, h, hx⟩

theorem hasAssign_updateAssignPriv (s : Store) (a : Role) (uid : String)
    (p : Option Privilege) (r : Role) (x : String) :
    hasAssign (applyWrite s (.updateAssignPriv a uid p)) r x ↔ hasAssign s r x := by
  unfold hasAssign
  rw [assigns_updateAssignPriv]
  by_cases hra : r = a
  · rw [if_pos hra]
    constructor
    · rintro ⟨row, hrow, hx⟩
      rcases List.mem_map.mp hrow with ⟨row0, h0, heq⟩
      refine ⟨row0, h0, ?_⟩
      rw [← heq] at hx
      by_cases hu : row0.userId = uid
      · rw [if_pos hu] at hx; exact hx
      · rw [if_neg hu] at hx; exact hx
    · rintro ⟨row, hrow, hx⟩
      refine ⟨if row.userId = uid then { row with privilege := p } else row,
        List.mem_map.mpr ⟨row, hrow, rfl⟩, ?_⟩
      by_cases hu : row.userId = uid
      · rw [if_pos hu]; exact hx
      · rw [if_neg hu]; exact hx
  · rw [if_neg hra]

theorem hasAssign_insertAssignList (s : Store) (rs : List Role)
    (privs : Role → Option Privilege) (uid ts : String) (r : Role) (x : String) :
    hasAssign (runWrites s (rs.map (fun r => .insertAssign r uid (privs r) ts))) r x ↔
      hasAssign s r x ∨ (x = uid ∧ r ∈ rs) := by
  induction rs generalizing s with
  | nil => simp [runWrites]
  | cons a t ih =>
      have step :
          runWrites s ((a :: t).map (fun r => Write.insertAssign r uid (privs r) ts)) =
            runWrites (applyWrite s (.insertAssign a uid (privs a) ts))
              (t.map (fun r => .insertAssign r uid (privs r) ts)) := rfl
      rw [step, ih, hasAssign_insertAssign]
      constructor
      · rintro ((h | ⟨hra, hxu⟩) | ⟨hxu, hmem⟩)
        · exact Or.inl h
        · exact Or.inr ⟨hxu, hra ▸ List.mem_cons_self _ _⟩
        · exact Or.inr ⟨hxu, List.mem_cons_of_mem _ hmem⟩
      · rintro (h | ⟨hxu, hmem⟩)
        · exact Or.inl (Or.inl h)
        · rcases List.mem_cons.mp hmem with h1 | h2
          · exact Or.inl (Or.inr ⟨h1, hxu⟩)
          · exact Or.inr ⟨hxu, h2⟩

theorem hasAssign_deleteAssignList (s : Store) (rs : List Role) (uid : String)
    (r : Role) (x : String) :
    hasAssign (runWrites s (rs.map (fun r => .deleteAssign r uid))) r x ↔
      hasAssign s r x ∧ ¬ (x = uid ∧ r ∈ rs) := by
  induction rs generalizing s with
  | nil => simp [runWrites]
  | cons a t ih =>
      have step :
          runWrites s ((a :: t).map (fun r => Write.deleteAssign r uid)) =
            runWrites (applyWrite s (.deleteAssign a uid))
              (t.map (fun r => .deleteAssign r uid)) := rfl
      rw [step, ih, hasAssign_deleteAssign]
      constructor
      · rintro ⟨⟨h, hne⟩, hnot⟩
        refine ⟨h, ?_⟩
        rintro ⟨hxu, hmem⟩
        rcases List.mem_cons.mp hmem with h1 | h2
        · exact hne ⟨h1, hxu⟩
        · exact hnot ⟨hxu, h2⟩
      · rintro ⟨h, hnot⟩
        refine ⟨⟨h, ?_⟩, ?_⟩
        · rintro ⟨hra, hxu⟩
          exact hnot ⟨hxu, hra ▸ List.mem_cons_self _ _⟩
        · rintro ⟨hxu, hmem⟩
          exact hnot ⟨hxu, List.mem_cons_of_mem _ hmem⟩

theorem hasAssign_updateAssignList (s : Store) (rs : List Role)
    (privs : Role → Option Privilege) (uid : String) (r : Role) (x : String) :
    hasAssign (runWrites s (rs.map (fun r => .updateAssignPriv r uid (privs r)))) r x ↔
      hasAssign s r x := by
  induction rs generalizing s with
  | nil => simp [runWrites]
  | cons a t ih =>
      have step :
          runWrites s ((a :: t).map (fun r => Write.updateAssignPriv r uid (privs r))) =
            runWrites (applyWrite s (.updateAssignPriv a uid (privs a)))
              (t.map (fun r => .updateAssignPriv r uid (privs r))) := rfl
      rw [step, ih, hasAssign_updateAssignPriv]

theorem assigns_setUserRoles (s : Store) (uid : String) (roles : List Role) :
    (applyWrite s (.setUserRoles uid roles)).assigns = s.assigns := rfl

theorem assigns_deleteUserRow (s : Store) (uid : String) :
    (applyWrite s (.deleteUserRow uid)).assigns = s.assigns := rfl

theorem assigns_insertUser (s : Store) (u : User) :
    (applyWrite s (.insertUser u)).assigns = s.assigns := rfl

theorem hasAssign_of_assigns_eq {s s' : Store} (h : s'.assigns = s.assigns)
    (r : Role) (x : String) : hasAssign s' r x ↔ hasAssign s r x := by
  unfold hasAssign
  rw [h]

theorem runWrites_append (s : Store) (ws1 ws2 : List Write) :
    runWrites s (ws1 ++ ws2) = runWrites (runWrites s ws1) ws2 :=
  List.foldl_append _ _ _ _

theorem getUserById_mem {s : Store} {uid : String} {u : User}
    (h : getUserById s uid = some u) : u ∈ s.users ∧ u.userId = uid := by
  unfold getUserById at h
  exact ⟨List.mem_of_find?_eq_some h, by
    have := List.find?_some h
    simpa using this⟩

/-! ## Consistency preservation (claim C1 groundwork) -/

theorem consistent_createUser (s : Store) (dto : CreateUserDto) (uid ts : String)
    (hc : consistent s) (hf : freshUserId s uid) :
    consistent (createUser s dto uid ts).1 := by
  set u0 : User := ⟨uid, dto.name, dto.email, dto.password, dto.roles, ts⟩ with hu0
  have hrun : (createUser s dto uid ts).1 =
      runWrites (applyWrite s (.insertUser u0))
        (dto.roles.map (fun r => .insertAssign r uid (dto.privileges r) ts)) := rfl
  intro u hu r
  rw [hrun] at hu ⊢
  rw [users_insertAssignList] at hu
  have hu' : u ∈ s.users ∨ u = u0 := by
    simpa [applyWrite] using hu
  rw [hasAssign_insertAssignList]
  rw [hasAssign_of_assigns_eq (assigns_insertUser s u0)]
  rcases hu' with hmem | hequ
  · have hne : u.userId ≠ uid := hf.1 u hmem
    rw [hc u hmem r]
    constructor
    · exact Or.inl
    · rintro (h | ⟨hxu, -⟩)
      · exact h
      · exact absurd hxu hne
  · subst hequ
    have hfr : ¬ hasAssign s r uid := hf.2 r
    constructor
    · intro hr
      exact Or.inr ⟨rfl, hr⟩
    · rintro (h | ⟨-, hr⟩)
      · exact absurd h hfr
      · exact hr

theorem consistent_updateURP (s s' : Store) (uid : String) (newRoles : List Role)
    (newPrivs : Role → Option Privilege) (ts : String)
    (hc : consistent s)
    (h : updateUserRolesAndPrivileges s uid newRoles newPrivs ts = some s') :
    consistent s' := by
  unfold updateUserRolesAndPrivileges updateURPWrites at h
  cases hfind : getUserById s uid with
  | none => rw [hfind] at h; simp at h
  | some u =>
      rw [hfind] at h
      obtain ⟨humem, huid⟩ := getUserById_mem hfind
      have h' : runWrites s (updateURPWritesOf u.roles newRoles newPrivs uid ts) = s' := by
        simpa using h
      subst h'
      unfold updateURPWritesOf
      rw [runWrites_append, runWrites_append, runWrites_append]
      set RS := u.roles.filter (fun r => r ∉ newRoles) with hRS
      set AS := newRoles.filter (fun r => r ∉ u.roles) with hAS
      set s1 := runWrites s (RS.map (fun r => .deleteAssign r uid)) with hs1
      set s2 := runWrites s1 (AS.map (fun r => .insertAssign r uid (newPrivs r) ts)) with hs2
      set s3 := runWrites s2 ((newRoles.filter (fun r => r ∈ u.roles)).map
        (fun r => .updateAssignPriv r uid (newPrivs r))) with hs3
      have husers3 : s3.users = s.users := by
        rw [hs3, hs2, hs1, users_updateAssignList, users_insertAssignList,
          users_deleteAssignList]
      have hassign3 : ∀ r x, hasAssign s3 r x ↔
          (hasAssign s r x ∧ ¬ (x = uid ∧ r ∈ RS)) ∨ (x = uid ∧ r ∈ AS) := by
        intro r x
        rw [hs3, hasAssign_updateAssignList, hs2, hasAssign_insertAssignList,
          hs1, hasAssign_deleteAssignList]
      intro v hv r
      have hvs : v ∈ (applyWrite s3 (.setUserRoles uid newRoles)).users := by
        simpa [runWrites] using hv
      simp only [applyWrite, List.mem_map, husers3] at hvs
      obtain ⟨w, hwmem, hweq⟩ := hvs
      have hassign' : hasAssign (runWrites s3 [.setUserRoles uid newRoles]) r v.userId ↔
          hasAssign s3 r v.userId := by
        exact hasAssign_of_assigns_eq (by rw [show runWrites s3 [.setUserRoles uid newRoles] =
          applyWrite s3 (.setUserRoles uid newRoles) from rfl, assigns_setUserRoles]) r v.userId
      rw [hassign', hassign3]
      by_cases hw : w.userId = uid
      · rw [if_pos hw] at hweq
        have hvid : v.userId = uid := by rw [← hweq, hw]
        have hvroles : v.roles = newRoles := by rw [← hweq]
        have hold : hasAssign s r uid ↔ r ∈ u.roles := by
          rw [← huid]; exact (hc u humem r).symm
        rw [hvroles, hvid]
        constructor
        · intro hr
          by_cases hro : r ∈ u.roles
          · refine Or.inl ⟨hold.mpr hro, ?_⟩
            rintro ⟨-, hmem⟩
            rw [hRS, List.mem_filter, decide_eq_true_eq] at hmem
            exact hmem.2 hr
          · refine Or.inr ⟨rfl, ?_⟩
            rw [hAS, List.mem_filter, decide_eq_true_eq]
            exact ⟨hr, hro⟩
        · rintro (⟨hhas, hnot⟩ | ⟨-, hmem⟩)
          · have hro : r ∈ u.roles := hold.mp hhas
            by_contra hrn
            exact hnot ⟨rfl, by
              rw [hRS, List.mem_filter, decide_eq_true_eq]
              exact ⟨hro, hrn⟩⟩
          · rw [hAS, List.mem_filter, decide_eq_true_eq] at hmem
            exact hmem.1
      · rw [if_neg hw] at hweq
        subst hweq
        have hwc := hc w hwmem r
        rw [hwc]
        constructor
        · intro hhas
          exact Or.inl ⟨hhas, by rintro ⟨hxu, -⟩; exact hw hxu⟩
        · rintro (⟨hhas, -⟩ | ⟨hxu, -⟩)
          · exact hhas
          · exact absurd hxu hw

/-! ## Orphan-freedom through write prefixes (claim C4 groundwork) -/

theorem users_insertAssign1 (s : Store) (a : Role) (uid : String)
    (p : Option Privilege) (ts : String) :
    (applyWrite s (.insertAssign a uid p ts)).users = s.users := rfl

theorem noOrphan_iff (s : Store) :
    noOrphan s ↔ ∀ r x, hasAssign s r x → ∃ u ∈ s.users, u.userId = x ∧ r ∈ u.roles := by
  constructor
  · rintro h r x ⟨row, hrow, hx⟩
    obtain ⟨u, hu, he, hr⟩ := h r row hrow
    exact ⟨u, hu, by rw [he, hx], hr⟩
  · intro h r row hrow
    exact h r row.userId ⟨row, hrow, rfl⟩

theorem noOrphan_insertUser (s : Store) (u : User) (h : noOrphan s) :
    noOrphan (applyWrite s (.insertUser u)) := by
  intro r row hrow
  rw [show (applyWrite s (.insertUser u)).assigns = s.assigns from rfl] at hrow
  obtain ⟨w, hw, he, hr⟩ := h r row hrow
  exact ⟨w, by
    rw [show (applyWrite s (.insertUser u)).users = s.users ++ [u] from rfl]
    exact List.mem_append.mpr (Or.inl hw), he, hr⟩

theorem noOrphan_insertAssign (s : Store) (a : Role) (uid : String)
    (p : Option Privilege) (ts : String) (h : noOrphan s)
    (hcov : ∃ u ∈ s.users, u.userId = uid ∧ a ∈ u.roles) :
    noOrphan (applyWrite s (.insertAssign a uid p ts)) := by
  intro r row hrow
  rw [assigns_insertAssign] at hrow
  rw [users_insertAssign1]
  by_cases hra : r = a
  · rw [if_pos hra] at hrow
    rcases List.mem_append.mp hrow with h1 | h1
    · exact h r row h1
    · rw [List.mem_singleton] at h1
      obtain ⟨u, hu, he, hr⟩ := hcov
      subst h1
      exact ⟨u, hu, he, hra ▸ hr⟩
  · rw [if_neg hra] at hrow
    exact h r row hrow

theorem noOrphan_deleteAssign (s : Store) (a : Role) (uid : String) (h : noOrphan s) :
    noOrphan (applyWrite s (.deleteAssign a uid)) := by
  intro r row hrow
  rw [assigns_deleteAssign] at hrow
  rw [show (applyWrite s (.deleteAssign a uid)).users = s.users from rfl]
  by_cases hra : r = a
  · rw [if_pos hra] at hrow
    exact h r row (List.mem_filter.mp hrow).1
  · rw [if_neg hra] at hrow
    exact h r row hrow

theorem noOrphan_updateAssignPriv (s : Store) (a : Role) (uid : String)
    (p : Option Privilege) (h : noOrphan s) :
    noOrphan (applyWrite s (.updateAssignPriv a uid p)) := by
  intro r row hrow
  rw [assigns_updateAssignPriv] at hrow
  rw [show (applyWrite s (.updateAssignPriv a uid p)).users = s.users from rfl]
  by_cases hra : r = a
  · rw [if_pos hra] at hrow
    rcases List.mem_map.mp hrow with ⟨row0, h0, heq⟩
    obtain ⟨u, hu, he, hr⟩ := h r row0 h0
    refine ⟨u, hu, ?_, hr⟩
    rw [← heq]
    by_cases hu0 : row0.userId = uid
    · rw [if_pos hu0]; exact he
    · rw [if_neg hu0]; exact he
  · rw [if_neg hra] at hrow
    exact h r row hrow

theorem noOrphan_deleteUserRow (s : Store) (uid : String) (h : noOrphan s)
    (hclean : ∀ r, ¬ hasAssign s r uid) :
    noOrphan (applyWrite s (.deleteUserRow uid)) := by
  intro r row hrow
  rw [show (applyWrite s (.deleteUserRow uid)).assigns = s.assigns from rfl] at hrow
  obtain ⟨u, hu, he, hr⟩ := h r row hrow
  have hne : row.userId ≠ uid := fun hbad => hclean r ⟨row, hrow, hbad⟩
  refine ⟨u, ?_, he, hr⟩
  rw [show (applyWrite s (.deleteUserRow uid)).users =
    s.users.filter (fun v => v.userId ≠ uid) from rfl]
  rw [List.mem_filter, decide_eq_true_eq]
  exact ⟨hu, he ▸ hne⟩

theorem prefix_preserved_append {P : Store → Prop} (s : Store) (ws1 ws2 : List Write)
    (h1 : ∀ n, P (runWrites s (ws1.take n)))
    (h2 : ∀ n, P (runWrites (runWrites s ws1) (ws2.take n))) :
    ∀ n, P (runWrites s ((ws1 ++ ws2).take n)) := by
  intro n
  rw [List.take_append_eq_append_take, runWrites_append]
  by_cases hn : n ≤ ws1.length
  · rw [Nat.sub_eq_zero_of_le hn]
    simpa [runWrites] using h1 n
  · rw [List.take_of_length_le (Nat.le_of_lt (Nat.lt_of_not_le hn))]
    exact h2 (n - ws1.length)

theorem noOrphan_insertAssignList_take (s : Store) (rs : List Role)
    (privs : Role → Option Privilege) (uid ts : String) (h : noOrphan s)
    (hcov : ∀ r ∈ rs, ∃ u ∈ s.users, u.userId = uid ∧ r ∈ u.roles) :
    ∀ n, noOrphan (runWrites s ((rs.map (fun r => .insertAssign r uid (privs r) ts)).take n)) := by
  induction rs generalizing s with
  | nil => intro n; simpa [runWrites] using h
  | cons a t ih =>
      intro n
      cases n with
      | zero => simpa [runWrites] using h
      | succ m =>
          have step : ((a :: t).map (fun r => Write.insertAssign r uid (privs r) ts)).take (m + 1) =
              Write.insertAssign a uid (privs a) ts ::
                (t.map (fun r => Write.insertAssign r uid (privs r) ts)).take m := rfl
          rw [step, show runWrites s (Write.insertAssign a uid (privs a) ts ::
            (t.map (fun r => Write.insertAssign r uid (privs r) ts)).take m) =
            runWrites (applyWrite s (.insertAssign a uid (privs a) ts))
              ((t.map (fun r => Write.insertAssign r uid (privs r) ts)).take m) from rfl]
          have h' := noOrphan_insertAssign s a uid (privs a) ts h
            (hcov a (List.mem_cons_self _ _))
          exact ih (applyWrite s (.insertAssign a uid (privs a) ts)) h'
            (fun r hr => hcov r (List.mem_cons_of_mem _ hr)) m

theorem noOrphan_deleteAssignList_take (s : Store) (rs : List Role) (uid : String)
    (h : noOrphan s) :
    ∀ n, noOrphan (runWrites s ((rs.map (fun r => .deleteAssign r uid)).take n)) := by
  induction rs generalizing s with
  | nil => intro n; simpa [runWrites] using h
  | cons a t ih =>
      intro n
      cases n with
      | zero => simpa [runWrites] using h
      | succ m =>
          have step : ((a :: t).map (fun r => Write.deleteAssign r uid)).take (m + 1) =
              Write.deleteAssign a uid ::
                (t.map (fun r => Write.deleteAssign r uid)).take m := rfl
          rw [step, show runWrites s (Write.deleteAssign a uid ::
            (t.map (fun r => Write.deleteAssign r uid)).take m) =
            runWrites (applyWrite s (.deleteAssign a uid))
              ((t.map (fun r => Write.deleteAssign r uid)).take m) from rfl]
          exact ih (applyWrite s (.deleteAssign a uid)) (noOrphan_deleteAssign s a uid h) m

theorem noOrphan_createUser_take (s : Store) (dto : CreateUserDto) (uid ts : String)
    (h : noOrphan s) :
    ∀ n, noOrphan (runWrites s ((createUserWrites dto uid ts).take n)) := by
  intro n
  cases n with
  | zero => simpa [runWrites] using h
  | succ m =>
      set u0 : User := ⟨uid, dto.name, dto.email, dto.password, dto.roles, ts⟩ with hu0
      have step : (createUserWrites dto uid ts).take (m + 1) =
          Write.insertUser u0 ::
            (dto.roles.map (fun r => Write.insertAssign r uid (dto.privileges r) ts)).take m := rfl
      rw [step, show runWrites s (Write.insertUser u0 ::
        (dto.roles.map (fun r => Write.insertAssign r uid (dto.privileges r) ts)).take m) =
        runWrites (applyWrite s (.insertUser u0))
          ((dto.roles.map (fun r => Write.insertAssign r uid (dto.privileges r) ts)).take m)
        from rfl]
      refine noOrphan_insertAssignList_take _ _ _ _ _ (noOrphan_insertUser s u0 h) ?_ m
      intro r hr
      exact ⟨u0, List.mem_append.mpr (Or.inr (List.mem_singleton.mpr rfl)), rfl, hr⟩

theorem noOrphan_deleteUser_take (s : Store) (uid : String) (ws : List Write)
    (hc : consistent s) (h : noOrphan s) (hws : deleteUserWrites s uid = some ws) :
    ∀ n, noOrphan (runWrites s (ws.take n)) := by
  unfold deleteUserWrites at hws
  cases hfind : getUserById s uid with
  | none => rw [hfind] at hws; simp at hws
  | some u =>
      rw [hfind] at hws
      have hws' : deleteUserWritesOf u.roles uid = ws := by simpa using hws
      subst hws'
      obtain ⟨humem, huid⟩ := getUserById_mem hfind
      unfold deleteUserWritesOf
      apply prefix_preserved_append
      · exact noOrphan_deleteAssignList_take s u.roles uid h
      · intro n
        set s1 := runWrites s (u.roles.map (fun r => .deleteAssign r uid)) with hs1
        have hno1 : noOrphan s1 := by
          have := noOrphan_deleteAssignList_take s u.roles uid h
            (u.roles.map (fun r => Write.deleteAssign r uid)).length
          rwa [List.take_length] at this
        cases n with
        | zero => simpa [runWrites] using hno1
        | succ m =>
            have step : ([Write.deleteUserRow uid]).take (m + 1) = [Write.deleteUserRow uid] := by
              simp
            rw [step, show runWrites s1 [Write.deleteUserRow uid] =
              applyWrite s1 (.deleteUserRow uid) from rfl]
            refine noOrphan_deleteUserRow s1 uid hno1 ?_
            intro r hhas
            rw [hs1, hasAssign_deleteAssignList] at hhas
            obtain ⟨hh, hnot⟩ := hhas
            have hru : r ∈ u.roles := (hc u humem r).mpr (by rwa [huid])
            exact hnot ⟨rfl, hru⟩

theorem noOrphan_updateURP (s s' : Store) (uid : String) (newRoles : List Role)
    (newPrivs : Role → Option Privilege) (ts : String)
    (hc : consistent s) (hno : noOrphan s)
    (h : updateUserRolesAndPrivileges s uid newRoles newPrivs ts = some s') :
    noOrphan s' := by
  unfold updateUserRolesAndPrivileges updateURPWrites at h
  cases hfind : getUserById s uid with
  | none => rw [hfind] at h; simp at h
  | some u =>
      rw [hfind] at h
      obtain ⟨humem, huid⟩ := getUserById_mem hfind
      have h' : runWrites s (updateURPWritesOf u.roles newRoles newPrivs uid ts) = s' := by
        simpa using h
      subst h'
      unfold updateURPWritesOf
      rw [runWrites_append, runWrites_append, runWrites_append]
      set RS := u.roles.filter (fun r => r ∉ newRoles) with hRS
      set AS := newRoles.filter (fun r => r ∉ u.roles) with hAS
      set s1 := runWrites s (RS.map (fun r => .deleteAssign r uid)) with hs1
      set s2 := runWrites s1 (AS.map (fun r => .insertAssign r uid (newPrivs r) ts)) with hs2
      set s3 := runWrites s2 ((newRoles.filter (fun r => r ∈ u.roles)).map
        (fun r => .updateAssignPriv r uid (newPrivs r))) with hs3
      have husers3 : s3.users = s.users := by
        rw [hs3, hs2, hs1, users_updateAssignList, users_insertAssignList,
          users_deleteAssignList]
      have hassign3 : ∀ r x, hasAssign s3 r x ↔
          (hasAssign s r x ∧ ¬ (x = uid ∧ r ∈ RS)) ∨ (x = uid ∧ r ∈ AS) := by
        intro r x
        rw [hs3, hasAssign_updateAssignList, hs2, hasAssign_insertAssignList,
          hs1, hasAssign_deleteAssignList]
      rw [noOrphan_iff]
      intro r x hx
      have hx3 : hasAssign s3 r x := by
        have heq : (runWrites s3 [Write.setUserRoles uid newRoles]).assigns = s3.assigns := by
          rw [show runWrites s3 [Write.setUserRoles uid newRoles] =
            applyWrite s3 (.setUserRoles uid newRoles) from rfl, assigns_setUserRoles]
        exact (hasAssign_of_assigns_eq heq r x).mp hx
      have husers' : (runWrites s3 [Write.setUserRoles uid newRoles]).users =
          s.users.map (fun v => if v.userId = uid then { v with roles := newRoles } else v) := by
        rw [show runWrites s3 [Write.setUserRoles uid newRoles] =
          applyWrite s3 (.setUserRoles uid newRoles) from rfl]
        simp only [applyWrite, husers3]
      rw [husers']
      rw [hassign3] at hx3
      rcases hx3 with ⟨hs, hnot⟩ | ⟨hxu, hASmem⟩
      · obtain ⟨w, hw, hwid, hwr⟩ := (noOrphan_iff s).mp hno r x hs
        by_cases hxu : x = uid
        · have hru : r ∈ u.roles := (hc u humem r).mpr (by rw [huid, ← hxu]; exact hs)
          have hrnew : r ∈ newRoles := by
            by_contra hrn
            exact hnot ⟨hxu, by
              rw [hRS, List.mem_filter, decide_eq_true_eq]
              exact ⟨hru, hrn⟩⟩
          refine ⟨{ w with roles := newRoles }, ?_, by simpa using hwid, hrnew⟩
          exact List.mem_map.mpr ⟨w, hw, by rw [if_pos (by rw [hwid, hxu])]⟩
        · refine ⟨w, ?_, hwid, hwr⟩
          exact List.mem_map.mpr ⟨w, hw, by rw [if_neg (by rw [hwid]; exact hxu)]⟩
      · have hrnew : r ∈ newRoles := by
          rw [hAS, List.mem_filter, decide_eq_true_eq] at hASmem
          exact hASmem.1
        refine ⟨{ u with roles := newRoles }, ?_, by simpa using huid.trans hxu.symm, hrnew⟩
        exact List.mem_map.mpr ⟨u, humem, by rw [if_pos huid]⟩

theorem consistent_deleteUser (s s' : Store) (uid : String)
    (hc : consistent s) (h : deleteUser s uid = some s') : consistent s' := by
  unfold deleteUser deleteUserWrites at h
  cases hfind : getUserById s uid with
  | none => rw [hfind] at h; simp at h
  | some u =>
      rw [hfind] at h
      have h' : runWrites s (deleteUserWritesOf u.roles uid) = s' := by
        simpa using h
      subst h'
      unfold deleteUserWritesOf
      rw [runWrites_append]
      set s1 := runWrites s (u.roles.map (fun r => .deleteAssign r uid)) with hs1
      intro v hv r
      have hvu : v ∈ s.users ∧ v.userId ≠ uid := by
        have : v ∈ (applyWrite s1 (.deleteUserRow uid)).users := by
          simpa [runWrites] using hv
        simp only [applyWrite, List.mem_filter, decide_eq_true_eq] at this
        rw [hs1, users_deleteAssignList] at this
        exact this
      have hassign' : hasAssign (runWrites s1 [.deleteUserRow uid]) r v.userId ↔
          hasAssign s1 r v.userId :=
        hasAssign_of_assigns_eq (by rw [show runWrites s1 [.deleteUserRow uid] =
          applyWrite s1 (.deleteUserRow uid) from rfl, assigns_deleteUserRow]) r v.userId
      rw [hassign', hs1, hasAssign_deleteAssignList, hc v hvu.1 r]
      constructor
      · intro hhas
        exact ⟨hhas, by rintro ⟨hxu, -⟩; exact hvu.2 hxu⟩
      · rintro ⟨hhas, -⟩
        exact hhas

/-! ## Concrete stores used by the witnesses -/

/-- A small consistent store: one user `u1` holding role USER with
privilege VIEWER. -/
def exStore : Store :=
  { users := [⟨"u1", "A", "a@x.com", "p", [.USER], "t0"⟩]
    assigns := fun r => if r = .USER then [⟨"u1", some .VIEWER, "t0"⟩] else [] }

/-- A creation payload with two roles, both privileged. -/
def exDto : CreateUserDto :=
  { name := "B", email := "b@x.com", password := "q", roles := [.ADMIN, .FINANCE]
    privileges := fun r =>
      if r = .ADMIN then some .EDITOR
      else if r = .FINANCE then some .VIEWER else none }

/-- Privileges granting EDITOR on ADMIN only. -/
def exPrivsAdmin : Role → Option Privilege :=
  fun r => if r = .ADMIN then some .EDITOR else none

/-! ## Claim C1 -/

/-- C1: starting from a store satisfying the membership/assignment
consistency invariant, every successful run of `createUser` (with a fresh
generated id), `updateUserRolesAndPrivileges`, or `deleteUser` leaves a
store in which, for every user U and every role R, R is in U's membership
array exactly when R's per-role table holds an assignment row with U's
userId. -/
theorem C1_roles_match_role_tables (s : Store) (hc : consistent s) :
    (∀ dto uid ts, freshUserId s uid → consistent (createUser s dto uid ts).1)
    ∧ (∀ uid newRoles newPrivs ts s',
        updateUserRolesAndPrivileges s uid newRoles newPrivs ts = some s' →
          consistent s')
    ∧ (∀ uid s', deleteUser s uid = some s' → consistent s') :=
  ⟨fun dto uid ts hf => consistent_createUser s dto uid ts hc hf,
   fun uid newRoles newPrivs ts s' h =>
     consistent_updateURP s s' uid newRoles newPrivs ts hc h,
   fun uid s' h => consistent_deleteUser s s' uid hc h⟩

/-- Witness for C1 at a concrete store and creation payload. -/
theorem C1_roles_match_role_tables_witness :
    consistent (createUser exStore exDto "u2" "t1").1 :=
  (C1_roles_match_role_tables exStore (by decide)).1 exDto "u2" "t1" (by decide)

/-! ## Claim C4 -/

/-- C4 is false as stated: `updateUserRolesAndPrivileges` inserts
assignment rows for newly added roles before rewriting the membership
array. Starting from the consistent, orphan-free `exStore` (user `u1`
holding only USER), the update to roles `[ADMIN]` issues a write list
whose first two writes (the USER-table delete and the ADMIN-table insert)
leave an ADMIN assignment row for `u1` while `u1`'s membership array is
still `[USER]`. -/
theorem C4_counterexample :
    consistent exStore ∧ noOrphan exStore ∧
      (updateURPWrites exStore "u1" [.ADMIN] exPrivsAdmin "t1").isSome = true ∧
      ¬ noOrphan (runWrites exStore
        (((updateURPWrites exStore "u1" [.ADMIN] exPrivsAdmin "t1").getD []).take 2)) :=
  ⟨by decide, by decide, by decide, by decide⟩

/-- C4 (amended): starting from a consistent, orphan-free store, every
prefix of the write sequences of `createUser` and `deleteUser` leaves no
assignment row whose role is unflagged in the owning user's membership
array; `updateUserRolesAndPrivileges` restores that property at
completion, but not at every intermediate point (see the
counterexample). -/
theorem C4_amended_orphan_free (s : Store) (hc : consistent s) (hno : noOrphan s) :
    (∀ dto uid ts n, noOrphan (runWrites s ((createUserWrites dto uid ts).take n)))
    ∧ (∀ uid ws n, deleteUserWrites s uid = some ws →
        noOrphan (runWrites s (ws.take n)))
    ∧ (∀ uid newRoles newPrivs ts s',
        updateUserRolesAndPrivileges s uid newRoles newPrivs ts = some s' →
          noOrphan s') :=
  ⟨fun dto uid ts n => noOrphan_createUser_take s dto uid ts hno n,
   fun uid ws n hws => noOrphan_deleteUser_take s uid ws hc hno hws n,
   fun uid newRoles newPrivs ts s' h =>
     noOrphan_updateURP s s' uid newRoles newPrivs ts hc hno h⟩

/-- Witness for the amended C4 at a concrete store, payload and prefix
length. -/
theorem C4_amended_orphan_free_witness :
    noOrphan (runWrites exStore ((createUserWrites exDto "u2" "t1").take 2)) :=
  (C4_amended_orphan_free exStore (by decide) (by decide)).1 exDto "u2" "t1" 2

/-! ## The PBAC gate: claims C2 and C3 -/

/-- The success condition of one iteration of the gate's role loop: the
live privilege equals the requirement, or the requirement is VIEWER and
the live privilege is EDITOR. -/
def privilegeSatisfies (required : Privilege) (live : Option Privilege) : Prop :=
  live = some required ∨ (required = .VIEWER ∧ live = some .EDITOR)

instance (required : Privilege) (live : Option Privilege) :
    Decidable (privilegeSatisfies required live) := instDecidableOr

theorem checkRoles_eq_true_iff (lookup : String → Role → Option Privilege)
    (user : GuardUser) (required : Privilege) (rs : List Role) :
    checkRoles lookup user required rs = true ↔
      ∃ r ∈ rs, r ∈ user.roles ∧ privilegeSatisfies required (lookup user.userId r) := by
  induction rs with
  | nil => simp [checkRoles]
  | cons a t ih =>
      unfold checkRoles
      by_cases ha : a ∈ user.roles
      · rw [if_pos ha]
        by_cases hsat : privilegeSatisfies required (lookup user.userId a)
        · have hLHS : (if lookup user.userId a = some required then true
              else if required = .VIEWER ∧ lookup user.userId a = some .EDITOR then true
              else checkRoles lookup user required t) = true := by
            rcases hsat with h1 | h2
            · rw [if_pos h1]
            · by_cases h1 : lookup user.userId a = some required
              · rw [if_pos h1]
              · rw [if_neg h1, if_pos h2]
          rw [hLHS]
          exact iff_of_true rfl ⟨a, List.mem_cons_self _ _, ha, hsat⟩
        · have h1 : ¬ lookup user.userId a = some required := fun h => hsat (Or.inl h)
          have h2 : ¬ (required = .VIEWER ∧ lookup user.userId a = some .EDITOR) :=
            fun h => hsat (Or.inr h)
          rw [if_neg h1, if_neg h2, ih]
          constructor
          · rintro ⟨r, hr, hheld, hs⟩
            exact ⟨r, List.mem_cons_of_mem _ hr, hheld, hs⟩
          · rintro ⟨r, hr, hheld, hs⟩
            rcases List.mem_cons.mp hr with h | h
            · subst h; exact absurd hs hsat
            · exact ⟨r, h, hheld, hs⟩
      · rw [if_neg ha, ih]
        constructor
        · rintro ⟨r, hr, hheld, hs⟩
          exact ⟨r, List.mem_cons_of_mem _ hr, hheld, hs⟩
        · rintro ⟨r, hr, hheld, hs⟩
          rcases List.mem_cons.mp hr with h | h
          · subst h; exact absurd hheld ha
          · exact ⟨r, h, hheld, hs⟩

theorem canActivate_some (required : Privilege) (requiredRoles : Option (List Role))
    (user : GuardUser) (lookup : String → Role → Option Privilege) :
    canActivate (some required) requiredRoles (some user) lookup =
      (if (requiredRoles.getD user.roles).isEmpty then
        .error (.missingPrivilege required)
      else if checkRoles lookup user required (requiredRoles.getD user.roles) then
        .ok true
      else .error (.missingPrivilege required)) := rfl

/-- C2: with the required privilege VIEWER, a candidate role the identity
holds with live privilege EDITOR makes the gate succeed; with the
required privilege EDITOR, if every held candidate role's live privilege
is VIEWER the gate throws Forbidden naming EDITOR. -/
theorem C2_privilege_escalation (user : GuardUser)
    (lookup : String → Role → Option Privilege) (requiredRoles : Option (List Role))
    (R : Role) :
    (R ∈ requiredRoles.getD user.roles → R ∈ user.roles →
      lookup user.userId R = some .EDITOR →
        canActivate (some .VIEWER) requiredRoles (some user) lookup = .ok true)
    ∧ ((∀ r ∈ requiredRoles.getD user.roles, r ∈ user.roles →
          lookup user.userId r = some .VIEWER) →
        canActivate (some .EDITOR) requiredRoles (some user) lookup =
          .error (.missingPrivilege .EDITOR)) := by
  constructor
  · intro hmem hheld hlk
    rw [canActivate_some]
    have hne : ¬ (requiredRoles.getD user.roles).isEmpty := by
      rw [List.isEmpty_iff]
      exact List.ne_nil_of_mem hmem
    rw [if_neg hne, if_pos ((checkRoles_eq_true_iff _ _ _ _).mpr
      ⟨R, hmem, hheld, Or.inr ⟨rfl, hlk⟩⟩)]
  · intro hall
    rw [canActivate_some]
    by_cases he : (requiredRoles.getD user.roles).isEmpty
    · rw [if_pos he]
    · rw [if_neg he, if_neg]
      rw [checkRoles_eq_true_iff]
      rintro ⟨r, hr, hheld, hs⟩
      have hv := hall r hr hheld
      rcases hs with h1 | ⟨h2, -⟩
      · rw [hv] at h1
        exact Privilege.noConfusion (Option.some.inj h1)
      · exact Privilege.noConfusion h2

/-- A one-role identity used by the gate witnesses. -/
def exGuardUser : GuardUser := ⟨"u1", [.ADMIN]⟩

/-- A live-privilege lookup granting EDITOR on ADMIN. -/
def exLookupEditor : String → Role → Option Privilege :=
  fun _ r => if r = .ADMIN then some .EDITOR else none

/-- A live-privilege lookup granting VIEWER on ADMIN. -/
def exLookupViewer : String → Role → Option Privilege :=
  fun _ r => if r = .ADMIN then some .VIEWER else none

/-- Witness for C2 at a concrete identity and lookups. -/
theorem C2_privilege_escalation_witness :
    canActivate (some .VIEWER) (some [.ADMIN]) (some exGuardUser) exLookupEditor = .ok true ∧
    canActivate (some .EDITOR) (some [.ADMIN]) (some exGuardUser) exLookupViewer =
      .error (.missingPrivilege .EDITOR) :=
  ⟨(C2_privilege_escalation exGuardUser exLookupEditor (some [.ADMIN]) .ADMIN).1
      (by decide) (by decide) (by decide),
   (C2_privilege_escalation exGuardUser exLookupViewer (some [.ADMIN]) .ADMIN).2
      (by decide)⟩

/-- C3: when no privilege is required the gate passes for every lookup
(so no live-privilege fetch can matter); otherwise, with an identity
present, it passes exactly when some candidate role the identity holds
carries a satisfying live privilege, and in every other case — the empty
candidate set included — it throws Forbidden naming the required
privilege. -/
theorem C3_pbac_gate_characterization :
    (∀ (requiredRoles : Option (List Role)) (requestUser : Option GuardUser)
        (lookup : String → Role → Option Privilege),
        canActivate none requiredRoles requestUser lookup = .ok true)
    ∧ (∀ (required : Privilege) (requiredRoles : Option (List Role)) (user : GuardUser)
        (lookup : String → Role → Option Privilege),
        (canActivate (some required) requiredRoles (some user) lookup = .ok true ↔
          ∃ r ∈ requiredRoles.getD user.roles, r ∈ user.roles ∧
            privilegeSatisfies required (lookup user.userId r))
        ∧ (¬ (∃ r ∈ requiredRoles.getD user.roles, r ∈ user.roles ∧
              privilegeSatisfies required (lookup user.userId r)) →
            canActivate (some required) requiredRoles (some user) lookup =
              .error (.missingPrivilege required))) := by
  refine ⟨fun _ _ _ => rfl, fun required requiredRoles user lookup => ?_⟩
  rw [canActivate_some]
  by_cases he : (requiredRoles.getD user.roles).isEmpty
  · rw [if_pos he]
    have hnil : requiredRoles.getD user.roles = [] := List.isEmpty_iff.mp he
    constructor
    · constructor
      · intro h; exact Except.noConfusion h
      · rintro ⟨r, hr, -⟩
        rw [hnil] at hr
        exact absurd hr (List.not_mem_nil r)
    · intro _; rfl
  · rw [if_neg he]
    by_cases hch : checkRoles lookup user required (requiredRoles.getD user.roles) = true
    · rw [if_pos hch]
      constructor
      · exact iff_of_true rfl ((checkRoles_eq_true_iff _ _ _ _).mp hch)
      · intro hne
        exact absurd ((checkRoles_eq_true_iff _ _ _ _).mp hch) hne
    · rw [if_neg hch]
      constructor
      · constructor
        · intro h; exact Except.noConfusion h
        · intro hex
          exact absurd ((checkRoles_eq_true_iff _ _ _ _).mpr hex) hch
      · intro _; rfl

/-- Witness for C3 at a concrete identity and lookup. -/
theorem C3_pbac_gate_characterization_witness :
    canActivate (some .EDITOR) (some [.FINANCE]) (some exGuardUser) exLookupViewer =
      .error (.missingPrivilege .EDITOR) :=
  (C3_pbac_gate_characterization.2 .EDITOR (some [.FINANCE]) exGuardUser exLookupViewer).2
    (by decide)

/-! ## Authentication service: claims C5 and C6 -/

theorem find?_append_none {α : Type} (l1 l2 : List α) (p : α → Bool)
    (h : l1.find? p = none) : (l1 ++ l2).find? p = l2.find? p := by
  induction l1 with
  | nil => rfl
  | cons a t ih =>
      rw [List.find?_cons] at h
      rw [List.cons_append, List.find?_cons]
      cases hpa : p a with
      | true =>
          rw [hpa] at h
          exact Option.noConfusion h
      | false =>
          rw [hpa] at h
          exact ih h

/-- C5: `register` throws Conflict when a user with the same email
already exists; otherwise (with a fresh generated id) the created user's
role set is exactly `[LEARNER]` and the learner table records privilege
VIEWER for them — the caller supplies no roles or privileges at all. -/
theorem C5_register_defaults (s : Store) (dto : RegisterDto) (uid ts : String)
    (hf : freshUserId s uid) :
    ((∃ u ∈ s.users, u.email = dto.email) →
      register s dto uid ts = .error .conflictEmailExists)
    ∧ (∀ s' u, register s dto uid ts = .ok (s', u) →
        u.roles = [.LEARNER] ∧
          getUserPrivilegeForRole s' uid .LEARNER = some .VIEWER) := by
  constructor
  · intro hex
    have hsome : (getUserByEmail s dto.email).isSome := by
      unfold getUserByEmail
      rw [List.find?_isSome]
      obtain ⟨u, hu, he⟩ := hex
      exact ⟨u, hu, by simp [he]⟩
    unfold register
    cases hfind : getUserByEmail s dto.email with
    | none => rw [hfind] at hsome; exact absurd hsome (by simp)
    | some u => rfl
  · intro s' u hok
    unfold register at hok
    cases hfind : getUserByEmail s dto.email with
    | some w => rw [hfind] at hok; exact Except.noConfusion hok
    | none =>
        rw [hfind] at hok
        have hpair := Except.ok.inj hok
        have hs' : s' = (createUser s
            { name := dto.name, email := dto.email, password := dto.password
              roles := [.LEARNER]
              privileges := fun r => if r = .LEARNER then some .VIEWER else none }
            uid ts).1 := (congrArg Prod.fst hpair).symm
        have hu : u = ⟨uid, dto.name, dto.email, dto.password, [.LEARNER], ts⟩ :=
          (congrArg Prod.snd hpair).symm
        refine ⟨by rw [hu], ?_⟩
        rw [hs']
        have hassigns : ((createUser s
            { name := dto.name, email := dto.email, password := dto.password
              roles := [.LEARNER]
              privileges := fun r => if r = .LEARNER then some .VIEWER else none }
            uid ts).1).assigns .LEARNER =
          s.assigns .LEARNER ++ [⟨uid, some .VIEWER, ts⟩] := rfl
        unfold getUserPrivilegeForRole
        rw [hassigns, find?_append_none]
        · simp
        · rw [List.find?_eq_none]
          intro row hrow
          simp only [decide_eq_true_eq]
          intro hbad
          exact hf.2 .LEARNER ⟨row, hrow, hbad⟩

/-- Witness for C5: the taken email conflicts; a fresh registration gets
exactly the LEARNER role with VIEWER privilege. -/
theorem C5_register_defaults_witness :
    register exStore ⟨"A2", "a@x.com", "p"⟩ "u9" "t9" = .error .conflictEmailExists
    ∧ ((⟨"u3", "C", "c@x.com", "p2", [.LEARNER], "t2"⟩ : User).roles = [.LEARNER]
        ∧ getUserPrivilegeForRole
            (createUser exStore
              { name := "C", email := "c@x.com", password := "p2"
                roles := [.LEARNER]
                privileges := fun r => if r = .LEARNER then some .VIEWER else none }
              "u3" "t2").1 "u3" .LEARNER = some .VIEWER) :=
  ⟨(C5_register_defaults exStore ⟨"A2", "a@x.com", "p"⟩ "u9" "t9" (by decide)).1
      ⟨⟨"u1", "A", "a@x.com", "p", [.USER], "t0"⟩, by decide, rfl⟩,
   (C5_register_defaults exStore ⟨"C", "c@x.com", "p2"⟩ "u3" "t2" (by decide)).2
      _ _ rfl⟩

/-- C6: when the email-conflict check passes and some role of
`dto.roles` has no privilege entry, `createUserByAdmin` throws BadRequest
naming an offending role (the first such role) and creates no user. -/
theorem C6_createUserByAdmin_missing_privilege (s : Store) (dto : CreateUserDto)
    (uid ts : String) (hnoconflict : ∀ u ∈ s.users, u.email ≠ dto.email)
    (R : Role) (hR : R ∈ dto.roles) (hmiss : dto.privileges R = none) :
    ∃ r, createUserByAdmin s dto uid ts = .error (.badRequestMissingPrivilege r)
      ∧ r ∈ dto.roles ∧ dto.privileges r = none := by
  have hnone : getUserByEmail s dto.email = none := by
    unfold getUserByEmail
    rw [List.find?_eq_none]
    intro u hu
    simp only [decide_eq_true_eq]
    exact hnoconflict u hu
  have hsome : (dto.roles.find? (fun r => (dto.privileges r).isNone)).isSome := by
    rw [List.find?_isSome]
    exact ⟨R, hR, by simp [hmiss]⟩
  cases hfind : dto.roles.find? (fun r => (dto.privileges r).isNone) with
  | none => rw [hfind] at hsome; exact absurd hsome (by simp)
  | some r0 =>
      refine ⟨r0, ?_, List.mem_of_find?_eq_some hfind, ?_⟩
      · unfold createUserByAdmin
        rw [hnone, hfind]
      · have hpr := List.find?_some hfind
        simp only [Option.isNone_iff_eq_none] at hpr
        exact hpr

/-! ## Claim C9: blank password never overwrites the credential -/

theorem find?_userId_map (l : List User) (uid : String) (f : User → User)
    (hf : ∀ u, (f u).userId = u.userId) :
    (l.map f).find? (fun v => v.userId = uid) =
      (l.find? (fun v => v.userId = uid)).map f := by
  induction l with
  | nil => rfl
  | cons a t ih =>
      rw [List.map_cons, List.find?_cons, List.find?_cons]
      have hd : decide ((f a).userId = uid) = decide (a.userId = uid) := by rw [hf]
      rw [hd]
      cases hpa : decide (a.userId = uid) with
      | true => rfl
      | false => exact ih

theorem updateUser_of_not_empty (s : Store) (uid : String) (f : UpdateFields)
    (hne : f.isEmpty = false) (u : User) (hfind : getUserById s uid = some u) :
    updateUser s uid f =
      .ok ({ s with users := s.users.map (fun v =>
              if v.userId = uid then applyFields f v else v) },
           applyFields f u) := by
  have hpres : ∀ v : User,
      (if v.userId = uid then applyFields f v else v).userId = v.userId := by
    intro v
    by_cases hv : v.userId = uid
    · rw [if_pos hv]; rfl
    · rw [if_neg hv]
  have huid : u.userId = uid := by
    have := List.find?_some hfind
    simpa using this
  have hfind' : getUserById
      { s with users := s.users.map (fun v =>
          if v.userId = uid then applyFields f v else v) } uid =
      some (applyFields f u) := by
    show (s.users.map (fun v => if v.userId = uid then applyFields f v else v)).find?
      (fun v => v.userId = uid) = some (applyFields f u)
    rw [find?_userId_map _ _ _ hpres]
    rw [show (s.users.find? (fun v => v.userId = uid)) = some u from hfind]
    show some (if u.userId = uid then applyFields f u else u) = some (applyFields f u)
    rw [if_pos huid]
  unfold updateUser
  rw [if_neg (by rw [hne]; exact Bool.false_ne_true)]
  simp only [hfind']

theorem updateURP_password_frame (s s1 : Store) (uid : String) (nr : List Role)
    (np : Role → Option Privilege) (ts : String)
    (h : updateUserRolesAndPrivileges s uid nr np ts = some s1) :
    s1.users.map User.password = s.users.map User.password := by
  unfold updateUserRolesAndPrivileges updateURPWrites at h
  cases hfind : getUserById s uid with
  | none => rw [hfind] at h; simp at h
  | some u =>
      rw [hfind] at h
      have h' : runWrites s (updateURPWritesOf u.roles nr np uid ts) = s1 := by
        simpa using h
      subst h'
      unfold updateURPWritesOf
      rw [runWrites_append, runWrites_append, runWrites_append]
      set s3 := runWrites (runWrites (runWrites s
        ((u.roles.filter (fun r => r ∉ nr)).map (fun r => .deleteAssign r uid)))
        ((nr.filter (fun r => r ∉ u.roles)).map
          (fun r => .insertAssign r uid (np r) ts)))
        ((nr.filter (fun r => r ∈ u.roles)).map
          (fun r => .updateAssignPriv r uid (np r))) with hs3
      have husers3 : s3.users = s.users := by
        rw [hs3, users_updateAssignList, users_insertAssignList, users_deleteAssignList]
      have hlast : (runWrites s3 [Write.setUserRoles uid nr]).users =
          s3.users.map (fun v => if v.userId = uid then { v with roles := nr } else v) := rfl
      rw [hlast, husers3, List.map_map]
      apply List.map_congr_left
      intro v _
      by_cases hv : v.userId = uid
      · simp [hv]
      · simp [hv]

theorem updateUser_password_frame (s : Store) (uid : String) (f : UpdateFields)
    (hp : f.password = none) (s2 : Store) (u2 : User)
    (h : updateUser s uid f = .ok (s2, u2)) :
    s2.users.map User.password = s.users.map User.password := by
  unfold updateUser at h
  by_cases he : f.isEmpty = true
  · rw [if_pos he] at h
    exact Except.noConfusion h
  · rw [if_neg he] at h
    revert h
    show (match getUserById { s with users := s.users.map (fun (v : User) =>
        if v.userId = uid then applyFields f v else v) } uid with
      | none => Except.error DalErr.userNotFoundAfterUpdate
      | some w => Except.ok ({ s with users := s.users.map (fun (v : User) =>
          if v.userId = uid then applyFields f v else v) }, w)) = .ok (s2, u2) →
      s2.users.map User.password = s.users.map User.password
    intro h
    cases hfind2 : getUserById { s with users := s.users.map (fun v =>
        if v.userId = uid then applyFields f v else v) } uid with
    | none => rw [hfind2] at h; exact Except.noConfusion h
    | some w =>
        rw [hfind2] at h
        have hs2 : s2 = { s with users := s.users.map (fun v =>
            if v.userId = uid then applyFields f v else v) } :=
          (congrArg Prod.fst (Except.ok.inj h)).symm
        rw [hs2]
        show (s.users.map (fun v =>
          if v.userId = uid then applyFields f v else v)).map User.password =
          s.users.map User.password
        rw [List.map_map]
        apply List.map_congr_left
        intro v _
        show ((if v.userId = uid then applyFields f v else v) : User).password = v.password
        by_cases hv : v.userId = uid
        · rw [if_pos hv]
          show f.password.getD v.password = v.password
          rw [hp]
          rfl
        · rw [if_neg hv]

theorem basicStage_password_frame (s1 : Store) (uid : String) (nameOpt : Option String)
    (s' : Store) (ru : Option User)
    (h : (if ¬ (UpdateFields.isEmpty ⟨nameOpt, none, none, none⟩) then
            match updateUser s1 uid ⟨nameOpt, none, none, none⟩ with
            | .error e => Except.error (AuthErr.dalError e)
            | .ok (s'', u') => Except.ok (s'', some u')
          else .ok (s1, getUserById s1 uid)) = Except.ok (s', ru)) :
    s'.users.map User.password = s1.users.map User.password := by
  cases nameOpt with
  | none =>
      rw [if_neg (by simp [UpdateFields.isEmpty])] at h
      have h1 : s1 = s' := congrArg Prod.fst (Except.ok.inj h)
      rw [← h1]
  | some n =>
      rw [if_pos (by simp [UpdateFields.isEmpty])] at h
      cases hup : updateUser s1 uid ⟨some n, none, none, none⟩ with
      | error e => rw [hup] at h; exact Except.noConfusion h
      | ok p =>
          rw [hup] at h
          obtain ⟨s2, u2⟩ := p
          have hs' : s' = s2 := (congrArg Prod.fst (Except.ok.inj h)).symm
          rw [hs']
          exact updateUser_password_frame s1 uid ⟨some n, none, none, none⟩ rfl s2 u2 hup

/-- C9: `updateUserByAdmin` with an empty-string password field never
writes the blank credential: whatever name, roles and privileges
accompany it, every stored user row keeps its password; and in the
name-update scenario the name is applied while the target user's
credential and all other fields stay as they were. -/
theorem C9_blank_password_keeps_credential (s : Store) (uid ts : String)
    (u : User) (hfind : getUserById s uid = some u) :
    (∀ (nameOpt : Option String) (rolesOpt : Option (List Role))
        (privsOpt : Option (Role → Option Privilege)) (s' : Store) (ru : Option User),
        updateUserByAdmin s uid ⟨nameOpt, none, some "", rolesOpt, privsOpt⟩ ts =
          .ok (s', ru) →
        s'.users.map User.password = s.users.map User.password)
    ∧ (∀ n : String,
        updateUserByAdmin s uid ⟨some n, none, some "", none, none⟩ ts =
          .ok ({ users := s.users.map (fun v =>
                  if v.userId = uid then { v with name := n } else v)
                 assigns := s.assigns },
               some { u with name := n })) := by
  constructor
  · intro nameOpt rolesOpt privsOpt s' ru hok
    unfold updateUserByAdmin at hok
    rw [hfind] at hok
    cases rolesOpt with
    | none =>
        have hok' : (if ¬ (UpdateFields.isEmpty ⟨nameOpt, none, none, none⟩) then
              match updateUser s uid ⟨nameOpt, none, none, none⟩ with
              | .error e => Except.error (AuthErr.dalError e)
              | .ok (s'', u') => Except.ok (s'', some u')
            else .ok (s, getUserById s uid)) = Except.ok (s', ru) := by
          cases privsOpt with
          | none => exact hok
          | some np => exact hok
        exact basicStage_password_frame s uid nameOpt s' ru hok'
    | some nr =>
        cases privsOpt with
        | none =>
            exact basicStage_password_frame s uid nameOpt s' ru hok
        | some np =>
            revert hok
            show (match (match nr.find? (fun r => (np r).isNone) with
                | some r => Except.error (AuthErr.badRequestMissingPrivilege r)
                | none =>
                    match updateUserRolesAndPrivileges s uid nr np ts with
                    | none => Except.error AuthErr.dalUserNotFound
                    | some s1 => Except.ok s1) with
              | Except.error e => Except.error e
              | Except.ok s1 =>
                  if ¬ (UpdateFields.isEmpty ⟨nameOpt, none, none, none⟩) then
                    match updateUser s1 uid ⟨nameOpt, none, none, none⟩ with
                    | .error e => Except.error (AuthErr.dalError e)
                    | .ok (s'', u') => Except.ok (s'', some u')
                  else .ok (s1, getUserById s1 uid)) = Except.ok (s', ru) →
              s'.users.map User.password = s.users.map User.password
            intro hok
            cases hfp : nr.find? (fun r => (np r).isNone) with
            | some r => rw [hfp] at hok; exact Except.noConfusion hok
            | none =>
                rw [hfp] at hok
                cases hurp : updateUserRolesAndPrivileges s uid nr np ts with
                | none => rw [hurp] at hok; exact Except.noConfusion hok
                | some s1 =>
                    rw [hurp] at hok
                    have hframe := basicStage_password_frame s1 uid nameOpt s' ru hok
                    rw [hframe]
                    exact updateURP_password_frame s s1 uid nr np ts hurp
  · intro n
    have step1 : updateUserByAdmin s uid ⟨some n, none, some "", none, none⟩ ts =
        (match updateUser s uid ⟨some n, none, none, none⟩ with
         | .error e => .error (.dalError e)
         | .ok (s'', u') => .ok (s'', some u')) := by
      unfold updateUserByAdmin
      rw [hfind]
      rfl
    rw [step1, updateUser_of_not_empty s uid ⟨some n, none, none, none⟩ rfl u hfind]
    rfl

/-- Witness for C9 at the concrete store: user `u1` keeps password `p`
while the name changes. -/
theorem C9_blank_password_keeps_credential_witness :
    updateUserByAdmin exStore "u1" ⟨some "A2", none, some "", none, none⟩ "t9" =
      .ok ({ users := exStore.users.map (fun v =>
              if v.userId = "u1" then { v with name := "A2" } else v)
             assigns := exStore.assigns },
           some { userId := "u1", name := "A2", email := "a@x.com", password := "p"
                  roles := [.USER], created_at := "t0" }) :=
  (C9_blank_password_keeps_credential exStore "u1" "t9"
    ⟨"u1", "A", "a@x.com", "p", [.USER], "t0"⟩ (by decide)).2 "A2"

/-- Witness for C6: roles `[ADMIN, FINANCE]` with only ADMIN privileged
fails naming FINANCE. -/
theorem C6_createUserByAdmin_missing_privilege_witness :
    ∃ r, createUserByAdmin exStore
        { name := "D", email := "d@x.com", password := "p3"
          roles := [.ADMIN, .FINANCE], privileges := exPrivsAdmin }
        "u5" "t5" = .error (.badRequestMissingPrivilege r)
      ∧ r ∈ [Role.ADMIN, Role.FINANCE] ∧ exPrivsAdmin r = none :=
  C6_createUserByAdmin_missing_privilege exStore
    { name := "D", email := "d@x.com", password := "p3"
      roles := [.ADMIN, .FINANCE], privileges := exPrivsAdmin }
    "u5" "t5" (by decide) .FINANCE (by decide) (by decide)

/-! ## Validator and auto-migrator: claims C7, C8, C10 -/

theorem created_mono (create : String → CreateOutcome) (ts : List String)
    (acc : MigrationResult) :
    ∀ a, a ∈ acc.created → a ∈ (ts.foldl (attemptCreate create) acc).created := by
  induction ts generalizing acc with
  | nil => intro a ha; exact ha
  | cons t rest ih =>
      intro a ha
      show a ∈ (rest.foldl (attemptCreate create) (attemptCreate create acc t)).created
      apply ih
      cases hct : create t with
      | ok => simp only [attemptCreate, hct]; exact List.mem_append.mpr (Or.inl ha)
      | err m => simp only [attemptCreate, hct]; exact ha

theorem failed_mono (create : String → CreateOutcome) (ts : List String)
    (acc : MigrationResult) :
    ∀ p, p ∈ acc.failed → p ∈ (ts.foldl (attemptCreate create) acc).failed := by
  induction ts generalizing acc with
  | nil => intro p hp; exact hp
  | cons t rest ih =>
      intro p hp
      show p ∈ (rest.foldl (attemptCreate create) (attemptCreate create acc t)).failed
      apply ih
      cases hct : create t with
      | ok => simp only [attemptCreate, hct]; exact hp
      | err m => simp only [attemptCreate, hct]; exact List.mem_append.mpr (Or.inl hp)

theorem foldl_attemptCreate_covers (create : String → CreateOutcome)
    (ts : List String) (acc : MigrationResult) :
    ∀ t ∈ ts, (t ∈ (ts.foldl (attemptCreate create) acc).created ∧ create t = .ok)
      ∨ ∃ m, (t, m) ∈ (ts.foldl (attemptCreate create) acc).failed ∧ create t = .err m := by
  induction ts generalizing acc with
  | nil => intro t ht; exact absurd ht (List.not_mem_nil t)
  | cons a rest ih =>
      intro t ht
      rcases List.mem_cons.mp ht with h | h
      · subst h
        cases hct : create t with
        | ok =>
            left
            refine ⟨?_, rfl⟩
            show t ∈ (rest.foldl (attemptCreate create) (attemptCreate create acc t)).created
            apply created_mono
            simp only [attemptCreate, hct]
            exact List.mem_append.mpr (Or.inr (List.mem_singleton.mpr rfl))
        | err m =>
            right
            refine ⟨m, ?_, rfl⟩
            show (t, m) ∈ (rest.foldl (attemptCreate create) (attemptCreate create acc t)).failed
            apply failed_mono
            simp only [attemptCreate, hct]
            exact List.mem_append.mpr (Or.inr (List.mem_singleton.mpr rfl))
      · exact ih (attemptCreate create acc a) t h

/-- C7: when the validator reports every table present,
`autoCreateMissingTables` returns the empty migration result for every
possible creation behavior (so no creation is attempted); otherwise every
missing table is attempted independently, landing in `created` on
success and in `failed` with its error message on failure — including
the `users` table when it is the missing one. -/
theorem C7_autoCreate_idempotent (env : ProbeEnv) (create : String → CreateOutcome) :
    ((validateAllTablesExist env).allTablesExist = true →
      autoCreateMissingTables env create = ⟨[], []⟩)
    ∧ ((validateAllTablesExist env).allTablesExist = false →
        (∀ t ∈ (validateAllTablesExist env).missingTables,
          (t ∈ (autoCreateMissingTables env create).created ∧ create t = .ok)
          ∨ ∃ m, (t, m) ∈ (autoCreateMissingTables env create).failed ∧
              create t = .err m)
        ∧ ((validateAllTablesExist env).usersTableExists = false →
            ("users" ∈ (autoCreateMissingTables env create).created ∧
              create "users" = .ok)
            ∨ ∃ m, ("users", m) ∈ (autoCreateMissingTables env create).failed ∧
                create "users" = .err m)) := by
  constructor
  · intro h
    simp only [autoCreateMissingTables]
    rw [h]
    rfl
  · intro h
    simp only [autoCreateMissingTables]
    rw [h, if_neg Bool.false_ne_true]
    constructor
    · intro t ht
      exact foldl_attemptCreate_covers create _ _ t ht
    · intro hu
      rw [hu, if_pos Bool.false_ne_true]
      cases hcu : create "users" with
      | ok =>
          left
          refine ⟨?_, rfl⟩
          apply created_mono
          simp only [attemptCreate, hcu]
          exact List.mem_append.mpr (Or.inr (List.mem_singleton.mpr rfl))
      | err m =>
          right
          refine ⟨m, ?_, rfl⟩
          apply failed_mono
          simp only [attemptCreate, hcu]
          exact List.mem_append.mpr (Or.inr (List.mem_singleton.mpr rfl))

/-- A probe environment in which every table exists. -/
def exEnvAll : ProbeEnv := fun _ => .ok true

/-- A probe environment raising a store error for the `admin` table. -/
def exEnvErr : ProbeEnv := fun t => if t = "admin" then .err "boom" else .ok true

/-- A creation behavior that always fails. -/
def exCreateFail : String → CreateOutcome := fun _ => .err "down"

/-- Witness for C7: with everything present, the result is empty even
under an always-failing creator. -/
theorem C7_autoCreate_idempotent_witness :
    autoCreateMissingTables exEnvAll exCreateFail = ⟨[], []⟩ :=
  (C7_autoCreate_idempotent exEnvAll exCreateFail).1 (by decide)

/-- C8: a store error while probing one expected table classifies that
table as missing, the scan still classifies every other expected table,
and the `users` probe still happens (its outcome is reported in
`usersTableExists`). -/
theorem C8_probe_error_treated_missing (env : ProbeEnv) (t0 msg : String)
    (ht0 : t0 ∈ getExpectedTableNames) (herr : env t0 = .err msg) :
    t0 ∈ (validateAllTablesExist env).missingTables
    ∧ (∀ t ∈ getExpectedTableNames,
        t ∈ (validateAllTablesExist env).existingTables ∨
          t ∈ (validateAllTablesExist env).missingTables)
    ∧ (validateAllTablesExist env).usersTableExists = checkTableExists env "users" := by
  refine ⟨?_, ?_, rfl⟩
  · show t0 ∈ getExpectedTableNames.filter (fun t => ¬ checkTableExists env t)
    rw [List.mem_filter]
    refine ⟨ht0, ?_⟩
    have hc : checkTableExists env t0 = false := by
      unfold checkTableExists
      rw [herr]
    simp [hc]
  · intro t ht
    by_cases hc : checkTableExists env t = true
    · left
      show t ∈ getExpectedTableNames.filter (fun t => checkTableExists env t)
      rw [List.mem_filter]
      exact ⟨ht, by simp [hc]⟩
    · right
      show t ∈ getExpectedTableNames.filter (fun t => ¬ checkTableExists env t)
      rw [List.mem_filter]
      exact ⟨ht, by simp [Bool.eq_false_iff.mpr hc]⟩

/-- Witness for C8 at the erroring environment: `admin` is classified
missing. -/
theorem C8_probe_error_treated_missing_witness :
    "admin" ∈ (validateAllTablesExist exEnvErr).missingTables :=
  (C8_probe_error_treated_missing exEnvErr "admin" "boom" (by decide) (by decide)).1

/-- C10: the validation result partitions the expected-table list into
`existingTables` and `missingTables`; the shared `users` table appears in
neither and is reported only via `usersTableExists`; and
`allTablesExist` holds exactly when no expected table is missing and the
`users` table exists. -/
theorem C10_validation_result_invariants (env : ProbeEnv) :
    (∀ t, ¬ (t ∈ (validateAllTablesExist env).existingTables ∧
        t ∈ (validateAllTablesExist env).missingTables))
    ∧ (∀ t, (t ∈ (validateAllTablesExist env).existingTables ∨
        t ∈ (validateAllTablesExist env).missingTables) ↔ t ∈ getExpectedTableNames)
    ∧ "users" ∉ (validateAllTablesExist env).existingTables
    ∧ "users" ∉ (validateAllTablesExist env).missingTables
    ∧ ((validateAllTablesExist env).allTablesExist = true ↔
        (validateAllTablesExist env).missingTables = [] ∧
          (validateAllTablesExist env).usersTableExists = true) := by
  have hmem : ∀ t, (t ∈ (validateAllTablesExist env).existingTables ↔
        t ∈ getExpectedTableNames ∧ checkTableExists env t = true)
      ∧ (t ∈ (validateAllTablesExist env).missingTables ↔
        t ∈ getExpectedTableNames ∧ checkTableExists env t = false) := by
    intro t
    constructor
    · show t ∈ getExpectedTableNames.filter (fun t => checkTableExists env t) ↔ _
      rw [List.mem_filter]
    · show t ∈ getExpectedTableNames.filter (fun t => ¬ checkTableExists env t) ↔ _
      rw [List.mem_filter]
      simp
  have husers : "users" ∉ getExpectedTableNames := by decide
  refine ⟨?_, ?_, ?_, ?_, ?_⟩
  · intro t ⟨h1, h2⟩
    have e1 := ((hmem t).1.mp h1).2
    have e2 := ((hmem t).2.mp h2).2
    rw [e1] at e2
    exact Bool.noConfusion e2
  · intro t
    constructor
    · rintro (h | h)
      · exact ((hmem t).1.mp h).1
      · exact ((hmem t).2.mp h).1
    · intro ht
      by_cases hc : checkTableExists env t = true
      · exact Or.inl ((hmem t).1.mpr ⟨ht, hc⟩)
      · exact Or.inr ((hmem t).2.mpr ⟨ht, Bool.eq_false_iff.mpr hc⟩)
  · intro h
    exact husers ((hmem "users").1.mp h).1
  · intro h
    exact husers ((hmem "users").2.mp h).1
  · show ((decide ((getExpectedTableNames.filter
        (fun t => ¬ checkTableExists env t)).length = 0)
      && checkTableExists env "users") = true) ↔ _
    rw [Bool.and_eq_true, decide_eq_true_eq, List.length_eq_zero]
    exact Iff.rfl

/-- Witness for C10: in the all-tables environment `users` is reported
only through the flag. -/
theorem C10_validation_result_invariants_witness :
    "users" ∉ (validateAllTablesExist exEnvAll).existingTables :=
  (C10_validation_result_invariants exEnvAll).2.2.1

end PG
